import Mathlib

/-!
Verification of the Cobre_Prueba marketing-funnel attribution pipeline.

The Python source (src/data_loader.py, src/preprocessing.py,
src/attribution_analysis.py) is shallowly embedded here:

* a pandas DataFrame becomes a Lean `List` of typed records (or, for the
  schema-level column-dropping logic, a list of named columns of cells);
* nullable cells (NaN / NaT) become `Option`;
* float arithmetic is idealised as exact rational (`ℚ`) arithmetic, with
  pandas' special values (NaN, ±inf) modelled explicitly where the code can
  produce them (division by a zero denominator);
* exceptions become `Except` / `Option` results.

Each embedded definition carries the name of the Python function it models.
-/

namespace Cobre

/-! ### Funnel metrics (attribution_analysis.calculate_funnel_metrics)

A row of the joined MQL × closed-deals frame, restricted to the columns the
funnel computation reads.  `sr_id` and `won_date` are raw nullable CSV cells;
only their definedness (`notna`) matters here. -/

structure FunnelRow where
  mql_id : String
  sr_id : Option String
  won_date : Option String
deriving DecidableEq, Repr

structure FunnelMetrics where
  n_mql : Nat
  n_sql : Nat
  n_won : Nat
  conversion_mql_to_sql : ℚ
  conversion_sql_to_won : ℚ
  conversion_mql_to_won : ℚ
deriving DecidableEq, Repr

/-- `df['mql_id'].nunique()` : number of distinct values in the column. -/
def nuniqueMql (df : List FunnelRow) : Nat :=
  (df.map (·.mql_id)).dedup.length

/-- The guarded ratio pattern `(num / den) if den > 0 else 0` of
attribution_analysis.py lines 53-55. -/
def safeRatio (num den : Nat) : ℚ :=
  if den > 0 then (num : ℚ) / den else 0

/-- Embedding of `calculate_funnel_metrics` (attribution_analysis.py,
lines 46-64): counts of distinct `mql_id` overall, among rows with
`sr_id` defined, and among rows with `won_date` defined, plus the three
stage-conversion ratios, each guarded to 0 when its denominator is 0. -/
def calculate_funnel_metrics (df : List FunnelRow) : FunnelMetrics :=
  let n_mql := nuniqueMql df
  let n_sql := nuniqueMql (df.filter (·.sr_id.isSome))
  let n_won := nuniqueMql (df.filter (·.won_date.isSome))
  { n_mql := n_mql
    n_sql := n_sql
    n_won := n_won
    conversion_mql_to_sql := safeRatio n_sql n_mql
    conversion_sql_to_won := safeRatio n_won n_sql
    conversion_mql_to_won := safeRatio n_won n_mql }

lemma safeRatio_of_den_zero (num : Nat) : safeRatio num 0 = 0 := by
  simp [safeRatio]

lemma safeRatio_mem_unit {num den : Nat} (h : num ≤ den) :
    0 ≤ safeRatio num den ∧ safeRatio num den ≤ 1 := by
  unfold safeRatio
  split
  · rename_i hden
    have hden' : (0 : ℚ) < den := by exact_mod_cast hden
    refine ⟨by positivity, ?_⟩
    rw [div_le_one hden']
    exact_mod_cast h
  · norm_num

/-- The distinct-count of a column never grows when rows are filtered away. -/
lemma nuniqueMql_filter_le (df : List FunnelRow) (p : FunnelRow → Bool) :
    nuniqueMql (df.filter p) ≤ nuniqueMql df := by
  unfold nuniqueMql
  rw [← List.card_toFinset, ← List.card_toFinset]
  apply Finset.card_le_card
  intro a ha
  rw [List.mem_toFinset] at ha ⊢
  rcases List.mem_map.mp ha with ⟨r, hr, hra⟩
  exact List.mem_map.mpr ⟨r, List.mem_of_mem_filter hr, hra⟩

/-- If every row satisfying `p` also satisfies `q`, filtering by `p` yields
at most as many distinct `mql_id` values as filtering by `q`. -/
lemma nuniqueMql_filter_mono (df : List FunnelRow) (p q : FunnelRow → Bool)
    (h : ∀ r ∈ df, p r → q r) :
    nuniqueMql (df.filter p) ≤ nuniqueMql (df.filter q) := by
  unfold nuniqueMql
  rw [← List.card_toFinset, ← List.card_toFinset]
  apply Finset.card_le_card
  intro a ha
  rw [List.mem_toFinset] at ha ⊢
  rcases List.mem_map.mp ha with ⟨r, hr, hra⟩
  have hrdf := List.mem_of_mem_filter hr
  have hp := List.of_mem_filter hr
  exact List.mem_map.mpr ⟨r, List.mem_filter.mpr ⟨hrdf, h r hrdf hp⟩, hra⟩

/-- A record set on which the funnel counts violate `n_won ≤ n_sql`: one lead
with a closure date but no qualification reference. -/
def funnelGapDf : List FunnelRow :=
  [{ mql_id := "lead1", sr_id := none, won_date := some "2018-01-05 10:00:00" }]

/-- A small well-formed record set: one won lead (with `sr_id`), one lead
qualified but not won, one bare MQL. -/
def funnelDemoDf : List FunnelRow :=
  [{ mql_id := "a", sr_id := some "sr9", won_date := some "2018-02-03 09:30:00" },
   { mql_id := "b", sr_id := some "sr7", won_date := none },
   { mql_id := "c", sr_id := none, won_date := none }]

/-! ### Data loader (data_loader.load_data)

A row of the marketing-qualified-leads CSV and a row of the closed-deals CSV,
restricted to the columns downstream code reads.  The file system and the CSV
parser are external collaborators: each source arrives as
`Option (List _Row)`, `none` standing for a missing/unreadable file or a
parse failure (the code's `os.path.exists` guard and its `try/except`, both
of which make `load_data` return an empty frame). -/

structure MktRow where
  mql_id : String
  first_contact_date : Option String
  origin : Option String
  landing_page_id : Option String
deriving DecidableEq, Repr

structure ClosedRow where
  mql_id : String
  sr_id : Option String
  sdr_id : Option String
  won_date : Option String
  seller_id : Option String
deriving DecidableEq, Repr

/-- A row of the joined frame: the left (MQL) columns always present, the
right (closed-deal) columns all-NaN when the lead matched no closed deal. -/
structure JoinedRow where
  mkt : MktRow
  deal : Option ClosedRow
deriving DecidableEq, Repr

/-- `df_mkt.merge(df_closed, on='mql_id', how='left')`: every left row is
kept; a left row with k > 0 key matches yields k joined rows, one per match;
a left row with no match yields one row with undefined deal columns. -/
def mergeLeft (mkt : List MktRow) (closed : List ClosedRow) : List JoinedRow :=
  mkt.flatMap fun m =>
    match closed.filter (fun c => c.mql_id = m.mql_id) with
    | [] => [{ mkt := m, deal := none }]
    | ms => ms.map fun c => { mkt := m, deal := some c }

/-- Embedding of `load_data` (data_loader.py, lines 20-37): if either source
is missing/unreadable (or reading/combining raises), return the empty frame;
otherwise return the left join of the MQL frame with the closed-deals frame
on `mql_id`. -/
def load_data (mktSrc : Option (List MktRow)) (closedSrc : Option (List ClosedRow)) :
    List JoinedRow :=
  match mktSrc, closedSrc with
  | some mkt, some closed => mergeLeft mkt closed
  | _, _ => []

/-- Concrete two-row MQL source and one-row closed-deals source. -/
def demoMkt : List MktRow :=
  [{ mql_id := "a", first_contact_date := some "2018-01-01",
     origin := some "paid_search", landing_page_id := some "lp1" },
   { mql_id := "b", first_contact_date := some "2018-01-02",
     origin := some "organic", landing_page_id := none }]

def demoClosed : List ClosedRow :=
  [{ mql_id := "a", sr_id := some "sr1", sdr_id := some "sd1",
     won_date := some "2018-01-06 11:00:00", seller_id := some "s1" }]

/-! ### Date parsing (preprocessing.preprocess_data, lines 58-70)

`pd.to_datetime(..., format='%Y-%m-%d', errors='coerce')` parses a
fixed-format `YYYY-MM-DD` string into a date and turns anything unparseable
(including missing cells) into NaT.  A parsed date is represented by its
rata-die day number, so that pandas' `(a - b).dt.days` is plain integer
subtraction.  (The pandas `Timestamp` year range restriction is not
modelled; no claim involves out-of-range years.) -/

/-- Decimal value of an all-digit character list, `none` otherwise. -/
def decDigits (cs : List Char) : Option Nat :=
  if cs.all Char.isDigit then
    some (cs.foldl (fun n c => 10 * n + (c.toNat - '0'.toNat)) 0)
  else none

def isLeap (y : Nat) : Bool :=
  (y % 4 == 0 && y % 100 != 0) || y % 400 == 0

def daysInMonth (y m : Nat) : Nat :=
  match m with
  | 1 => 31 | 2 => if isLeap y then 29 else 28 | 3 => 31 | 4 => 30
  | 5 => 31 | 6 => 30 | 7 => 31 | 8 => 31 | 9 => 30 | 10 => 31
  | 11 => 30 | 12 => 31 | _ => 0

/-- Days in year `y` strictly before month `m`. -/
def daysBeforeMonth (y : Nat) : Nat → Nat
  | 0 => 0
  | 1 => 0
  | m + 1 => daysBeforeMonth y m + daysInMonth y m

/-- Rata-die day number of the calendar date `y-m-d` (day 1 = 0001-01-01). -/
def toRataDie (y m d : Nat) : Nat :=
  365 * (y - 1) + (y - 1) / 4 - (y - 1) / 100 + (y - 1) / 400 +
    daysBeforeMonth y m + d

/-- Strict `YYYY-MM-DD` parse with calendar validation; `none` on any
mismatch (the `errors='coerce'` NaT). -/
def parseDate (s : String) : Option Nat :=
  match s.toList with
  | [y1, y2, y3, y4, s1, m1, m2, s2, d1, d2] =>
    if s1 = '-' ∧ s2 = '-' then
      match decDigits [y1, y2, y3, y4], decDigits [m1, m2], decDigits [d1, d2] with
      | some y, some m, some d =>
        if 1 ≤ y ∧ 1 ≤ m ∧ m ≤ 12 ∧ 1 ≤ d ∧ d ≤ daysInMonth y m then
          some (toRataDie y m d)
        else none
      | _, _, _ => none
    else none
  | _ => none

/-- `astype(str)` on a nullable cell: NaN prints as `"nan"`. -/
def cellStr : Option String → String
  | none => "nan"
  | some s => s

/-- `pd.to_datetime(df['first_contact_date'], format='%Y-%m-%d',
errors='coerce')` applied to one cell. -/
def parse_first_contact (cell : Option String) : Option Nat :=
  cell.bind parseDate

/-- `won_date` parse: `astype(str).str[:10]` then the coerced fixed-format
parse (preprocessing.py lines 61-62). -/
def parse_won_date (cell : Option String) : Option Nat :=
  parseDate ((cellStr cell).take 10)

/-- `target = np.where(won_date.isnull(), 0, 1)` after the parse. -/
def target_of (wonCell : Option String) : Nat :=
  if (parse_won_date wonCell).isSome then 1 else 0

/-- `origin = np.where(origin.isnull(), 'unknown', origin)`. -/
def origin_of (originCell : Option String) : String :=
  originCell.getD "unknown"

/-- `days_to_convert` for one record (preprocessing.py lines 67-70): defined
only where both parsed dates are present, as `(won_date -
first_contact_date).dt.days`; NaN elsewhere. -/
def days_to_convert_of (fcCell wonCell : Option String) : Option Int :=
  match parse_won_date wonCell, parse_first_contact fcCell with
  | some w, some f => some ((w : Int) - f)
  | _, _ => none

/-! ### Column dropping (preprocessing.get_low_completion_columns and the
drop phase of preprocessing.preprocess_data, lines 46-55)

This part of the code is schema-level, so the frame is modelled as a list of
named columns of nullable cells.  `df.count() / total_sellers` is a float
division whose denominator can be zero, producing pandas' special values:
`0/0 = NaN`, `c/0 = +inf` for `c > 0`.  Both compare as `False` under
`< threshold`, which is exactly what decides claim C10, so the quotient is
modelled in a dedicated type `PVal` rather than in `ℚ` (where `x / 0 = 0`
would wrongly satisfy `< threshold`). -/

structure Col where
  name : String
  cells : List (Option String)
deriving DecidableEq, Repr

abbrev ColDF := List Col

/-- Column lookup, `none` for pandas' `KeyError`. -/
def getCol (df : ColDF) (colName : String) : Option Col :=
  df.find? (fun c => c.name = colName)

/-- `df[col].count()`: number of non-null cells. -/
def colCount (c : Col) : Nat :=
  (c.cells.filterMap id).length

/-- `df[col].nunique()`: number of distinct non-null values. -/
def colNunique (c : Col) : Nat :=
  (c.cells.filterMap id).dedup.length

/-- A pandas float that may be NaN or ±infinity. -/
inductive PVal where
  | nan : PVal
  | pinf : PVal
  | ninf : PVal
  | val : ℚ → PVal
deriving DecidableEq, Repr

/-- Float division of a finite numerator by a finite denominator. -/
def pdiv (a b : ℚ) : PVal :=
  if b = 0 then
    if a = 0 then .nan else if a > 0 then .pinf else .ninf
  else .val (a / b)

/-- `x < t` as pandas evaluates it: `NaN < t` and `+inf < t` are `False`,
`-inf < t` is `True`. -/
def PVal.ltQ : PVal → ℚ → Bool
  | .nan, _ => false
  | .pinf, _ => false
  | .ninf, _ => true
  | .val q, t => q < t

/-- Executable round-to-nearest on `ℚ` (half rounds up); proved equal to
Mathlib's `round` in `roundQ_eq_round` below.  Stands for float rounding to
nearest (`Series.round`), up to the half-way tie convention, which no claim
touches. -/
def roundQ (q : ℚ) : ℤ :=
  Rat.floor (q + 1 / 2)

/-- `round(x, 2)`: round to two decimal places. -/
def round2 (q : ℚ) : ℚ :=
  (roundQ (q * 100) : ℚ) / 100

/-- `.round(2)` lifted to `PVal`; `round(NaN) = NaN`, `round(±inf) = ±inf`. -/
def PVal.round2 : PVal → PVal
  | .val q => .val (Cobre.round2 q)
  | x => x

lemma ratFloor_eq_floor (x : ℚ) : Rat.floor x = ⌊x⌋ := by
  rw [Rat.floor_def']
  exact Rat.floor_def.symm

lemma roundQ_eq_round (q : ℚ) : roundQ q = round q := by
  rw [roundQ, ratFloor_eq_floor, round_eq]

/-- Rounding to two decimals moves a value by at most half a cent. -/
lemma abs_round2_sub_le (q : ℚ) : |round2 q - q| ≤ 1 / 200 := by
  have h := abs_sub_round (q * 100)
  rw [abs_sub_comm] at h
  rw [round2, roundQ_eq_round]
  have he : (round (q * 100) : ℚ) / 100 - q = ((round (q * 100) : ℚ) - q * 100) / 100 := by
    ring
  rw [he, abs_div, abs_of_pos (show (0 : ℚ) < 100 by norm_num)]
  linarith

lemma round2_le (q : ℚ) : round2 q ≤ q + 1 / 200 := by
  have h := abs_round2_sub_le q
  rw [abs_le] at h
  linarith [h.2]

lemma le_round2 (q : ℚ) : q - 1 / 200 ≤ round2 q := by
  have h := abs_round2_sub_le q
  rw [abs_le] at h
  linarith [h.1]

/-- A rate at least `1/200` above the threshold stays above it after
rounding. -/
lemma ltQ_round2_false {q t : ℚ} (h : t + 1 / 200 ≤ q) :
    ((PVal.val q).round2).ltQ t = false := by
  simp only [PVal.round2, PVal.ltQ]
  rw [decide_eq_false_iff_not, not_lt]
  have := le_round2 q
  linarith

/-- A rate more than `1/200` below the threshold stays below it after
rounding. -/
lemma ltQ_round2_true {q t : ℚ} (h : q + 1 / 200 < t) :
    ((PVal.val q).round2).ltQ t = true := by
  simp only [PVal.round2, PVal.ltQ]
  rw [decide_eq_true_eq]
  have := round2_le q
  linarith


/-- Completion rate of one column: `(count / total_sellers * 100).round(2)`
(preprocessing.py line 28).  `a / b * 100` is computed as `(a * 100) / b`,
which agrees with float semantics on all sign/zero cases. -/
def completionRate (totalSellers : Nat) (c : Col) : PVal :=
  (pdiv ((colCount c : ℚ) * 100) (totalSellers : ℚ)).round2

/-- With a zero denominator the completion quotient is NaN (`0/0`) or `+inf`
(`c/0`, `c > 0`), and both compare `False` against any threshold. -/
lemma pdiv_zero_ltQ_false (a t : ℚ) (ha : 0 ≤ a) :
    ((pdiv a 0).round2).ltQ t = false := by
  unfold pdiv
  rw [if_pos rfl]
  rcases eq_or_lt_of_le ha with h | h
  · rw [if_pos h.symm]
    rfl
  · rw [if_neg (ne_of_gt h), if_pos h]
    rfl

lemma completionRate_ltQ_false (t : ℚ) (tot : Nat) (c : Col)
    (htot : (tot : ℚ) ≠ 0) (h : t + 1 / 200 ≤ (colCount c * 100 : ℚ) / tot) :
    (completionRate tot c).ltQ t = false := by
  unfold completionRate pdiv
  rw [if_neg htot]
  exact ltQ_round2_false h

lemma completionRate_ltQ_true (t : ℚ) (tot : Nat) (c : Col)
    (htot : (tot : ℚ) ≠ 0) (h : (colCount c * 100 : ℚ) / tot + 1 / 200 < t) :
    (completionRate tot c).ltQ t = true := by
  unfold completionRate pdiv
  rw [if_neg htot]
  exact ltQ_round2_true h

/-- Embedding of `get_low_completion_columns` (preprocessing.py lines 4-33):
names of the columns whose completion rate relative to the distinct
`seller_id` count is below the threshold.  `none` when the seller column is
absent (pandas `KeyError`). -/
def get_low_completion_columns (df : ColDF) (seller_id_col : String)
    (threshold : ℚ) : Option (List String) :=
  (getCol df seller_id_col).map fun sellerCol =>
    let totalSellers := colNunique sellerCol
    (df.filter (fun c => (completionRate totalSellers c).ltQ threshold)).map (·.name)

/-- The fixed non-predictive identifier columns of preprocessing.py line 50. -/
def nonPredictiveCols : List String :=
  ["landing_page_id", "seller_id", "sdr_id"]

/-- The protected essential columns of preprocessing.py line 52. -/
def essential_cols : List String :=
  ["mql_id", "sr_id", "won_date", "origin", "first_contact_date"]

/-- The drop list computed by `preprocess_data` (preprocessing.py lines
46-53): fixed identifiers plus low-completeness columns, minus anything
essential or absent from the frame. -/
def columns_to_drop (df : ColDF) : Option (List String) :=
  (get_low_completion_columns df "seller_id" 60).map fun lowQuality =>
    (nonPredictiveCols ++ lowQuality).filter
      (fun col => col ∉ essential_cols ∧ (df.map (·.name)).contains col)

/-- The column-drop phase of `preprocess_data` (preprocessing.py line 55).
The subsequent date-derivation phase is row-wise and is embedded by
`parse_first_contact`, `parse_won_date`, `target_of`, `origin_of` and
`days_to_convert_of` above. -/
def preprocess_data_drop (df : ColDF) : Option ColDF :=
  (columns_to_drop df).map fun toDrop =>
    df.filter (fun c => ¬ toDrop.contains c.name)

/-- A frame whose essential `won_date` column is 0% complete (all null) and
whose `seller_id` column has one distinct non-null value. -/
def colMqlId : Col := { name := "mql_id", cells := [some "a", some "b"] }

def colSeller : Col := { name := "seller_id", cells := [some "s1", none] }

def colWon : Col := { name := "won_date", cells := [none, none] }

def colOrigin : Col := { name := "origin", cells := [some "paid_search", some "organic"] }

def colFc : Col :=
  { name := "first_contact_date", cells := [some "2018-01-01", some "2018-01-02"] }

def demoColDF : ColDF := [colMqlId, colSeller, colWon, colOrigin, colFc]

/-- A frame whose `seller_id` column is entirely null. -/
def noSellerDF : ColDF :=
  [{ name := "mql_id", cells := [some "a"] },
   { name := "seller_id", cells := [none] },
   { name := "landing_page_id", cells := [some "lp1"] },
   { name := "origin", cells := [none] }]

/-! ### Origin scoring (attribution_analysis.calculate_origin_score)

The input is any frame carrying the columns the function reads (it is
documented to be "the output of `calculate_origin_conversion` or similar"),
with the two normalized components possibly NaN.  `np.isclose` with its
default tolerances is modelled exactly in `ℚ`. -/

structure ScoreInputRow where
  origin : String
  mql : Nat
  conversion : ℚ
  weighted_conversion : Option ℚ
  days_to_convert_q3 : Option ℚ
deriving DecidableEq, Repr

structure ScoredRow where
  origin : String
  mql : Nat
  conversion : ℚ
  weighted_conversion : ℚ
  days_to_convert_q3 : ℚ
  norm_weighted_conversion : ℚ
  norm_days_to_convert : ℚ
  origin_score : ℚ
deriving DecidableEq, Repr

/-- `np.isclose(a, b)` with the numpy defaults
`rtol = 1e-05`, `atol = 1e-08`: `|a - b| ≤ atol + rtol * |b|`. -/
def isclose (a b : ℚ) : Bool :=
  |a - b| ≤ 1 / 100000000 + (1 / 100000) * |b|

/-- `Series.min()`: minimum of the column, `none` on an empty column. -/
def listMin : List ℚ → Option ℚ
  | [] => none
  | x :: xs =>
    match listMin xs with
    | none => some x
    | some m => some (min x m)

/-- `Series.max()`: maximum of the column, `none` on an empty column. -/
def listMax : List ℚ → Option ℚ
  | [] => none
  | x :: xs =>
    match listMax xs with
    | none => some x
    | some m => some (max x m)

/-- Min-max normalization of one value against a column
(attribution_analysis.py lines 107-113): `(x - min) / (max - min)` when
`max > min`, the fixed mid-value `0.5` otherwise.  An empty column leaves
the `max > min` guard false (`NaN > NaN`), i.e. the `0.5` branch. -/
def normMinMax (vals : List ℚ) (x : ℚ) : ℚ :=
  match listMin vals, listMax vals with
  | some mn, some mx => if mx > mn then (x - mn) / (mx - mn) else 1 / 2
  | _, _ => 1 / 2

/-- Inverted min-max normalization (lines 115-122): `(max - x) / (max - min)`
when `max > min`, `0.5` otherwise. -/
def normMinMaxInv (vals : List ℚ) (x : ℚ) : ℚ :=
  match listMin vals, listMax vals with
  | some mn, some mx => if mx > mn then (mx - x) / (mx - mn) else 1 / 2
  | _, _ => 1 / 2

/-- The NaN fill of `weighted_conversion` (line 98): `fillna(0)`. -/
def wcFill (r : ScoreInputRow) : ℚ :=
  r.weighted_conversion.getD 0

/-- The NaN fill value of `days_to_convert_q3` (lines 100-104): the column
maximum over the non-NaN entries when one exists, else 0. -/
def daysFillVal (df : List ScoreInputRow) : ℚ :=
  match listMax (df.filterMap (·.days_to_convert_q3)) with
  | some m => m
  | none => 0

def daysFill (df : List ScoreInputRow) (r : ScoreInputRow) : ℚ :=
  r.days_to_convert_q3.getD (daysFillVal df)

/-- Embedding of `calculate_origin_score` (attribution_analysis.py lines
68-137): reject weights whose sum is not `np.isclose` to 1.0 before touching
the data; fill NaNs; min-max normalize `weighted_conversion` (direct) and
`days_to_convert_q3` (inverted) with the `0.5` degenerate branch; combine as
`weight_conversion * norm_weighted_conversion + weight_speed *
norm_days_to_convert`; sort by score descending.  (The post-normalization
`fillna(0)` of lines 125-126 is a no-op here: exact arithmetic introduces no
NaN once the inputs are filled.) -/
def calculate_origin_score (df : List ScoreInputRow)
    (weight_conversion weight_speed : ℚ) : Except String (List ScoredRow) :=
  if isclose (weight_conversion + weight_speed) 1 = false then
    .error "Weights must sum to 1.0"
  else
    let wcVals := df.map wcFill
    let dVals := df.map (daysFill df)
    let scored := df.map fun r =>
      { origin := r.origin, mql := r.mql, conversion := r.conversion
        weighted_conversion := wcFill r
        days_to_convert_q3 := daysFill df r
        norm_weighted_conversion := normMinMax wcVals (wcFill r)
        norm_days_to_convert := normMinMaxInv dVals (daysFill df r)
        origin_score := weight_conversion * normMinMax wcVals (wcFill r) +
          weight_speed * normMinMaxInv dVals (daysFill df r) }
    .ok (scored.mergeSort fun a b => decide (b.origin_score ≤ a.origin_score))

lemma listMin_eq_none {l : List ℚ} (h : listMin l = none) : l = [] := by
  cases l with
  | nil => rfl
  | cons a as =>
    rw [listMin] at h
    cases hml : listMin as with
    | none => rw [hml] at h; exact absurd h (by simp)
    | some m => rw [hml] at h; exact absurd h (by simp)

lemma listMax_eq_none {l : List ℚ} (h : listMax l = none) : l = [] := by
  cases l with
  | nil => rfl
  | cons a as =>
    rw [listMax] at h
    cases hml : listMax as with
    | none => rw [hml] at h; exact absurd h (by simp)
    | some m => rw [hml] at h; exact absurd h (by simp)

lemma listMin_le {l : List ℚ} {m : ℚ} (hm : listMin l = some m) :
    ∀ x ∈ l, m ≤ x := by
  induction l generalizing m with
  | nil => intro x hx; cases hx
  | cons a as ih =>
    intro x hx
    rw [listMin] at hm
    cases hml : listMin as with
    | none =>
      rw [hml] at hm
      simp only [Option.some_inj] at hm
      subst hm
      have hnil := listMin_eq_none hml
      subst hnil
      rcases List.mem_singleton.mp hx with rfl
      exact le_refl x
    | some m' =>
      rw [hml] at hm
      simp only [Option.some_inj] at hm
      subst hm
      rcases List.mem_cons.mp hx with rfl | hx'
      · exact min_le_left x m'
      · exact le_trans (min_le_right a m') (ih hml x hx')

lemma le_listMax {l : List ℚ} {m : ℚ} (hm : listMax l = some m) :
    ∀ x ∈ l, x ≤ m := by
  induction l generalizing m with
  | nil => intro x hx; cases hx
  | cons a as ih =>
    intro x hx
    rw [listMax] at hm
    cases hml : listMax as with
    | none =>
      rw [hml] at hm
      simp only [Option.some_inj] at hm
      subst hm
      have hnil := listMax_eq_none hml
      subst hnil
      rcases List.mem_singleton.mp hx with rfl
      exact le_refl x
    | some m' =>
      rw [hml] at hm
      simp only [Option.some_inj] at hm
      subst hm
      rcases List.mem_cons.mp hx with rfl | hx'
      · exact le_max_left x m'
      · exact le_trans (ih hml x hx') (le_max_right a m')

lemma listMin_isSome_of_mem {l : List ℚ} {x : ℚ} (hx : x ∈ l) :
    ∃ m, listMin l = some m := by
  cases l with
  | nil => cases hx
  | cons a as =>
    rw [listMin]
    cases listMin as with
    | none => exact ⟨a, rfl⟩
    | some m => exact ⟨min a m, rfl⟩

lemma listMax_isSome_of_mem {l : List ℚ} {x : ℚ} (hx : x ∈ l) :
    ∃ m, listMax l = some m := by
  cases l with
  | nil => cases hx
  | cons a as =>
    rw [listMax]
    cases listMax as with
    | none => exact ⟨a, rfl⟩
    | some m => exact ⟨max a m, rfl⟩

/-- On a column whose entries all share one value, min and max agree. -/
lemma listMin_listMax_of_const {l : List ℚ} {c : ℚ} (h : ∀ x ∈ l, x = c) :
    (listMin l = none ∧ listMax l = none) ∨
    (listMin l = some c ∧ listMax l = some c) := by
  induction l with
  | nil => exact Or.inl ⟨rfl, rfl⟩
  | cons a as ih =>
    have ha : a = c := h a (List.mem_cons_self a as)
    have has : ∀ x ∈ as, x = c := fun x hx => h x (List.mem_cons_of_mem a hx)
    rcases ih has with ⟨h1, h2⟩ | ⟨h1, h2⟩
    · refine Or.inr ?_
      rw [listMin, listMax, h1, h2, ha]
      exact ⟨rfl, rfl⟩
    · refine Or.inr ?_
      rw [listMin, listMax, h1, h2, ha]
      constructor
      · simp
      · simp

/-- The direct normalization lands in `[0,1]` for any column member. -/
lemma normMinMax_mem_unit {vals : List ℚ} {x : ℚ} (hx : x ∈ vals) :
    0 ≤ normMinMax vals x ∧ normMinMax vals x ≤ 1 := by
  obtain ⟨mn, hmn⟩ := listMin_isSome_of_mem hx
  obtain ⟨mx, hmx⟩ := listMax_isSome_of_mem hx
  have h1 : mn ≤ x := listMin_le hmn x hx
  have h2 : x ≤ mx := le_listMax hmx x hx
  simp only [normMinMax, hmn, hmx]
  split
  · rename_i hlt
    have hpos : (0 : ℚ) < mx - mn := by linarith
    constructor
    · apply div_nonneg _ (le_of_lt hpos)
      linarith
    · rw [div_le_one hpos]
      linarith
  · norm_num

/-- The inverted normalization lands in `[0,1]` for any column member. -/
lemma normMinMaxInv_mem_unit {vals : List ℚ} {x : ℚ} (hx : x ∈ vals) :
    0 ≤ normMinMaxInv vals x ∧ normMinMaxInv vals x ≤ 1 := by
  obtain ⟨mn, hmn⟩ := listMin_isSome_of_mem hx
  obtain ⟨mx, hmx⟩ := listMax_isSome_of_mem hx
  have h1 : mn ≤ x := listMin_le hmn x hx
  have h2 : x ≤ mx := le_listMax hmx x hx
  simp only [normMinMaxInv, hmn, hmx]
  split
  · rename_i hlt
    have hpos : (0 : ℚ) < mx - mn := by linarith
    constructor
    · apply div_nonneg _ (le_of_lt hpos)
      linarith
    · rw [div_le_one hpos]
      linarith
  · norm_num

/-- A constant column normalizes to `1/2` whatever the probe value. -/
lemma normMinMax_of_const {vals : List ℚ} {c : ℚ} (h : ∀ x ∈ vals, x = c)
    (x : ℚ) : normMinMax vals x = 1 / 2 := by
  rw [normMinMax]
  rcases listMin_listMax_of_const h with ⟨h1, h2⟩ | ⟨h1, h2⟩ <;>
    simp [h1, h2]

lemma normMinMaxInv_of_const {vals : List ℚ} {c : ℚ} (h : ∀ x ∈ vals, x = c)
    (x : ℚ) : normMinMaxInv vals x = 1 / 2 := by
  rw [normMinMaxInv]
  rcases listMin_listMax_of_const h with ⟨h1, h2⟩ | ⟨h1, h2⟩ <;>
    simp [h1, h2]

/-- Two origins with distinct `weighted_conversion` (1 vs 0) and equal
`days_to_convert_q3`. -/
def scoreHiRow : ScoreInputRow :=
  { origin := "hi", mql := 10, conversion := 50,
    weighted_conversion := some 1, days_to_convert_q3 := some 5 }

def scoreLoRow : ScoreInputRow :=
  { origin := "lo", mql := 5, conversion := 20,
    weighted_conversion := some 0, days_to_convert_q3 := some 5 }

def scoreGapDf : List ScoreInputRow := [scoreHiRow, scoreLoRow]

/-- Two origins sharing one `weighted_conversion` value. -/
def scoreConstDf : List ScoreInputRow :=
  [{ origin := "a", mql := 4, conversion := 25,
     weighted_conversion := some 3, days_to_convert_q3 := some 5 },
   { origin := "b", mql := 2, conversion := 50,
     weighted_conversion := some 3, days_to_convert_q3 := some 9 }]

/-! ### Origin attribution (attribution_analysis.calculate_origin_conversion)

The input is the preprocessed frame restricted to the columns the function
reads: `origin` (already sentinel-normalized, never null), `mql_id` (never
null), the binary `target`, and the possibly-NaN `days_to_convert`.

The `weighted_conversion` column (line 28, `(won/mql) * ln(mql)`) uses the
natural logarithm, a transcendental real, and is not modelled; no claim in
scope reads it (the scoring claims quantify over arbitrary input tables).
Group enumeration order before the final sort is immaterial to every claim
(the output is re-sorted by `conversion`), and is modelled as
first-occurrence order of the origin keys. -/

structure PRow where
  mql_id : String
  origin : String
  target : Nat
  days_to_convert : Option ℚ
deriving DecidableEq, Repr

structure AggRow where
  origin : String
  mql : Nat
  won : Nat
  days_to_convert_q3 : Option ℚ
deriving DecidableEq, Repr

structure OriginConvRow where
  origin : String
  mql : Nat
  won : Nat
  days_to_convert_q3 : Option ℚ
  mql_percentage : Option ℚ
  won_percentage : Option ℚ
  conversion : ℚ
deriving DecidableEq, Repr

/-- `Series.quantile(0.75)` with pandas' default linear interpolation
between order statistics, over the non-NaN values; NaN on an empty
selection. -/
def quantile75 (xs : List ℚ) : Option ℚ :=
  match xs.mergeSort (fun a b => decide (a ≤ b)) with
  | [] => none
  | y :: ys =>
    let s := y :: ys
    let n := s.length
    let i : Nat := (3 * (n - 1)) / 4
    let frac : ℚ := ((3 * (n - 1) : Nat) : ℚ) / 4 - (i : ℚ)
    let lower := s.getD i 0
    let upper := s.getD (i + 1) lower
    some (lower + frac * (upper - lower))

/-- The `groupby('origin').agg(...)` step (attribution_analysis.py lines
14-19): one aggregate row per distinct origin with the group size
(`count` of the never-null `mql_id`), the summed `target`, and the 75th
percentile of the group's `days_to_convert`. -/
def aggByOrigin (known : List PRow) : List AggRow :=
  ((known.map (·.origin)).dedup).map fun o =>
    let grp := known.filter (fun r => r.origin = o)
    { origin := o
      mql := grp.length
      won := (grp.map (·.target)).sum
      days_to_convert_q3 := quantile75 (grp.filterMap (·.days_to_convert)) }

/-- The percentage/rate columns added on top of the aggregation
(attribution_analysis.py lines 20-28): `round(x/total*100, 2)` shares over
the two column totals (a zero total makes the float quotient NaN, modelled
as `none`) and the per-origin conversion rate.  Every group is non-empty,
so the `conversion` denominator `mql` is never 0 on an output row. -/
def originRows (base : List AggRow) : List OriginConvRow :=
  let total_mql : Nat := (base.map (·.mql)).sum
  let total_won : Nat := (base.map (·.won)).sum
  base.map fun b =>
    { origin := b.origin, mql := b.mql, won := b.won
      days_to_convert_q3 := b.days_to_convert_q3
      mql_percentage :=
        if total_mql = 0 then none
        else some (round2 ((b.mql : ℚ) / total_mql * 100))
      won_percentage :=
        if total_won = 0 then none
        else some (round2 ((b.won : ℚ) / total_won * 100))
      conversion := round2 ((b.won : ℚ) / b.mql * 100) }

/-- Embedding of `calculate_origin_conversion` (attribution_analysis.py
lines 4-32): filter out the `'unknown'` sentinel, aggregate by origin, add
the percentage and conversion columns, and sort by `conversion`
descending. -/
def calculate_origin_conversion (df : List PRow) : List OriginConvRow :=
  (originRows (aggByOrigin (df.filter (fun r => r.origin ≠ "unknown")))).mergeSort
    fun a b => decide (b.conversion ≤ a.conversion)

/-- Triangle inequality for sums of pointwise-close functions. -/
lemma abs_sum_sub_sum_le {α : Type} (l : List α) (f g : α → ℚ) (c : ℚ)
    (h : ∀ x ∈ l, |f x - g x| ≤ c) :
    |(l.map f).sum - (l.map g).sum| ≤ (l.length : ℚ) * c := by
  induction l with
  | nil => simp
  | cons a as ih =>
    simp only [List.map_cons, List.sum_cons, List.length_cons]
    have h1 := h a (List.mem_cons_self a as)
    have h2 := ih (fun x hx => h x (List.mem_cons_of_mem a hx))
    have h3 : |f a + (as.map f).sum - (g a + (as.map g).sum)|
        ≤ |f a - g a| + |(as.map f).sum - (as.map g).sum| := by
      have := abs_add (f a - g a) ((as.map f).sum - (as.map g).sum)
      calc |f a + (as.map f).sum - (g a + (as.map g).sum)|
          = |(f a - g a) + ((as.map f).sum - (as.map g).sum)| := by ring_nf
        _ ≤ |f a - g a| + |(as.map f).sum - (as.map g).sum| := this
    calc |f a + (as.map f).sum - (g a + (as.map g).sum)|
        ≤ |f a - g a| + |(as.map f).sum - (as.map g).sum| := h3
      _ ≤ c + (as.length : ℚ) * c := add_le_add h1 h2
      _ = ((as.length : ℚ) + 1) * c := by ring
      _ = (((as.length + 1 : ℕ)) : ℚ) * c := by push_cast; ring

lemma sum_map_natCast_mul {α : Type} (l : List α) (f : α → ℕ) (c : ℚ) :
    (l.map fun x => (f x : ℚ) * c).sum = (((l.map f).sum : ℕ) : ℚ) * c := by
  induction l with
  | nil => simp
  | cons a as ih =>
    simp only [List.map_cons, List.sum_cons, ih]
    push_cast
    ring

/-- Rounded shares `round(x_i / S * 100, 2)` with `S = Σ x_i ≠ 0` sum to
100 up to one rounding error of `1/200` per row. -/
lemma round2_pct_sum (l : List AggRow) (f : AggRow → ℕ)
    (hS : (l.map f).sum ≠ 0) :
    |(l.map (fun b => round2 ((f b : ℚ) / (((l.map f).sum : ℕ) : ℚ) * 100))).sum - 100|
      ≤ (l.length : ℚ) / 200 := by
  have hSQ : ((((l.map f).sum : ℕ)) : ℚ) ≠ 0 := Nat.cast_ne_zero.mpr hS
  have hexact : (l.map (fun b => (f b : ℚ) / (((l.map f).sum : ℕ) : ℚ) * 100)).sum
      = 100 := by
    have h1 : (l.map (fun b => (f b : ℚ) / (((l.map f).sum : ℕ) : ℚ) * 100))
        = (l.map (fun b => (f b : ℚ) * (100 / (((l.map f).sum : ℕ) : ℚ)))) := by
      apply List.map_congr_left
      intro b _
      ring
    rw [h1, sum_map_natCast_mul l f (100 / (((l.map f).sum : ℕ) : ℚ))]
    calc ((((l.map f).sum : ℕ)) : ℚ) * (100 / (((l.map f).sum : ℕ) : ℚ))
        = 100 * (((((l.map f).sum : ℕ)) : ℚ) / (((l.map f).sum : ℕ) : ℚ)) := by ring
      _ = 100 := by rw [div_self hSQ, mul_one]
  have hbound := abs_sum_sub_sum_le l
    (fun b => round2 ((f b : ℚ) / (((l.map f).sum : ℕ) : ℚ) * 100))
    (fun b => (f b : ℚ) / (((l.map f).sum : ℕ) : ℚ) * 100) (1 / 200)
    (fun b _ => abs_round2_sub_le _)
  rw [hexact] at hbound
  calc |(l.map (fun b => round2 ((f b : ℚ) / (((l.map f).sum : ℕ) : ℚ) * 100))).sum - 100|
      ≤ (l.length : ℚ) * (1 / 200) := hbound
    _ = (l.length : ℚ) / 200 := by ring

/-- Every aggregate row counts a non-empty group. -/
lemma aggByOrigin_mql_pos (known : List PRow) :
    ∀ b ∈ aggByOrigin known, 1 ≤ b.mql := by
  intro b hb
  rcases List.mem_map.mp hb with ⟨o, ho, rfl⟩
  have ho' : o ∈ known.map (·.origin) := List.mem_dedup.mp ho
  rcases List.mem_map.mp ho' with ⟨r, hr, hro⟩
  have : r ∈ known.filter (fun r => r.origin = o) :=
    List.mem_filter.mpr ⟨hr, by simp [hro]⟩
  have hlen := List.length_pos.mpr (List.ne_nil_of_mem this)
  simpa using hlen

lemma aggByOrigin_ne_nil {known : List PRow} (h : known ≠ []) :
    aggByOrigin known ≠ [] := by
  intro hnil
  unfold aggByOrigin at hnil
  rw [List.map_eq_nil_iff, List.dedup_eq_nil, List.map_eq_nil_iff] at hnil
  exact h hnil

lemma aggByOrigin_total_mql_ne_zero {known : List PRow} (h : known ≠ []) :
    ((aggByOrigin known).map (·.mql)).sum ≠ 0 := by
  have hne := aggByOrigin_ne_nil h
  rcases hc : aggByOrigin known with _ | ⟨b, bs⟩
  · exact absurd hc hne
  · have hb : 1 ≤ b.mql :=
      aggByOrigin_mql_pos known b (hc ▸ List.mem_cons_self b bs)
    simp only [List.map_cons, List.sum_cons]
    omega

lemma originRows_map_mql_pct {base : List AggRow}
    (hT : (base.map (·.mql)).sum ≠ 0) :
    (originRows base).map (fun r => r.mql_percentage.getD 0)
      = base.map (fun b =>
          round2 ((b.mql : ℚ) / ((base.map (·.mql)).sum : ℕ) * 100)) := by
  unfold originRows
  rw [List.map_map]
  apply List.map_congr_left
  intro b _
  simp [hT]

lemma originRows_map_won_pct {base : List AggRow}
    (hW : (base.map (·.won)).sum ≠ 0) :
    (originRows base).map (fun r => r.won_percentage.getD 0)
      = base.map (fun b =>
          round2 ((b.won : ℚ) / ((base.map (·.won)).sum : ℕ) * 100)) := by
  unfold originRows
  rw [List.map_map]
  apply List.map_congr_left
  intro b _
  simp [hW]

/-- A non-empty record set whose every origin is the `'unknown'` sentinel. -/
def unknownOnlyDf : List PRow :=
  [{ mql_id := "m1", origin := "unknown", target := 0, days_to_convert := none }]

/-- Two known-origin records, one converted. -/
def demoPDf : List PRow :=
  [{ mql_id := "m1", origin := "paid_search", target := 1, days_to_convert := some 5 },
   { mql_id := "m2", origin := "organic", target := 0, days_to_convert := none }]

end Cobre

open Cobre

/-- C1 counterexample: `calculate_funnel_metrics` does not guarantee
`n_won ≤ n_sql`.  On a record whose `won_date` is defined but whose `sr_id`
is undefined, `n_won = 1 > 0 = n_sql` (the two stage filters are applied to
the input independently, not as nested subsets). -/
theorem funnel_chain_counterexample :
    ¬ ((calculate_funnel_metrics funnelGapDf).n_won ≤
        (calculate_funnel_metrics funnelGapDf).n_sql) := by
  decide

/-- C1 (amended): for every input record set, `n_sql ≤ n_mql` and
`n_won ≤ n_mql` always hold; `n_won ≤ n_sql` additionally holds whenever
every record with a defined closure date also has a defined qualification
reference. -/
theorem funnel_counts_ordered (df : List FunnelRow) :
    (calculate_funnel_metrics df).n_sql ≤ (calculate_funnel_metrics df).n_mql ∧
    (calculate_funnel_metrics df).n_won ≤ (calculate_funnel_metrics df).n_mql ∧
    ((∀ r ∈ df, r.won_date.isSome → r.sr_id.isSome) →
      (calculate_funnel_metrics df).n_won ≤ (calculate_funnel_metrics df).n_sql) := by
  refine ⟨?_, ?_, ?_⟩
  · simpa [calculate_funnel_metrics] using
      nuniqueMql_filter_le df (·.sr_id.isSome)
  · simpa [calculate_funnel_metrics] using
      nuniqueMql_filter_le df (·.won_date.isSome)
  · intro h
    simpa [calculate_funnel_metrics] using
      nuniqueMql_filter_mono df (·.won_date.isSome) (·.sr_id.isSome) h

/-- Witness for C1 (amended) at a concrete record set, discharging the
subset-hypothesis of the third conjunct. -/
theorem funnel_counts_ordered_witness :
    (calculate_funnel_metrics funnelDemoDf).n_won ≤
      (calculate_funnel_metrics funnelDemoDf).n_sql :=
  (funnel_counts_ordered funnelDemoDf).2.2 (by decide)

/-- C7: each funnel conversion ratio is 0 whenever its denominator is 0 (a
defined result of the total function, not a fault), and under the stage chain
`n_won ≤ n_sql ≤ n_mql` all three ratios lie in `[0,1]`. -/
theorem funnel_ratios_safe (df : List FunnelRow) :
    ((calculate_funnel_metrics df).n_mql = 0 →
      (calculate_funnel_metrics df).conversion_mql_to_sql = 0 ∧
      (calculate_funnel_metrics df).conversion_mql_to_won = 0) ∧
    ((calculate_funnel_metrics df).n_sql = 0 →
      (calculate_funnel_metrics df).conversion_sql_to_won = 0) ∧
    ((calculate_funnel_metrics df).n_won ≤ (calculate_funnel_metrics df).n_sql →
      (calculate_funnel_metrics df).n_sql ≤ (calculate_funnel_metrics df).n_mql →
      (0 ≤ (calculate_funnel_metrics df).conversion_mql_to_sql ∧
        (calculate_funnel_metrics df).conversion_mql_to_sql ≤ 1) ∧
      (0 ≤ (calculate_funnel_metrics df).conversion_sql_to_won ∧
        (calculate_funnel_metrics df).conversion_sql_to_won ≤ 1) ∧
      (0 ≤ (calculate_funnel_metrics df).conversion_mql_to_won ∧
        (calculate_funnel_metrics df).conversion_mql_to_won ≤ 1)) := by
  simp only [calculate_funnel_metrics]
  refine ⟨?_, ?_, ?_⟩
  · intro h
    rw [h]
    exact ⟨safeRatio_of_den_zero _, safeRatio_of_den_zero _⟩
  · intro h
    rw [h]
    exact safeRatio_of_den_zero _
  · intro h1 h2
    exact ⟨safeRatio_mem_unit h2, safeRatio_mem_unit h1,
      safeRatio_mem_unit (le_trans h1 h2)⟩

/-- C2 counterexample: `days_to_convert` is not always non-negative.  A
record whose closure date precedes its first-contact date (first contact
2018-01-15, closure 2018-01-01) parses on both sides yet yields
`days_to_convert = -14 < 0`; the code never clamps or rejects the negative
difference. -/
theorem days_to_convert_negative_counterexample :
    days_to_convert_of (some "2018-01-15") (some "2018-01-01") = some (-14) ∧
    ¬ (0 ≤ (-14 : Int)) := by
  constructor
  · decide
  · decide

/-- C2 (amended): `days_to_convert` is undefined exactly when the closure
date or the first-contact date fails to parse, and equals the signed integer
day difference (closure − first contact) when both parse — non-negative only
when the closure date is not earlier than the first contact. -/
theorem days_to_convert_spec (fcCell wonCell : Option String) :
    ((parse_won_date wonCell = none ∨ parse_first_contact fcCell = none) →
      days_to_convert_of fcCell wonCell = none) ∧
    (∀ w f, parse_won_date wonCell = some w → parse_first_contact fcCell = some f →
      days_to_convert_of fcCell wonCell = some ((w : Int) - f) ∧
      (0 ≤ (w : Int) - f ↔ f ≤ w)) := by
  constructor
  · rintro (h | h)
    · unfold days_to_convert_of
      rw [h]
    · unfold days_to_convert_of
      rw [h]
      rcases parse_won_date wonCell with _ | w <;> rfl
  · intro w f hw hf
    unfold days_to_convert_of
    rw [hw, hf]
    exact ⟨rfl, by omega⟩

/-- Witness for C2 (amended): an unparseable closure cell gives an undefined
`days_to_convert`, and the record (first_contact 2018-01-01, closure
2018-01-15) gives exactly 14 days. -/
theorem days_to_convert_spec_witness :
    days_to_convert_of (some "2018-01-01") none = none ∧
    days_to_convert_of (some "2018-01-01") (some "2018-01-15") = some 14 := by
  constructor
  · exact (days_to_convert_spec (some "2018-01-01") none).1 (Or.inl (by decide))
  · have h := ((days_to_convert_spec (some "2018-01-01") (some "2018-01-15")).2
      (toRataDie 2018 1 15) (toRataDie 2018 1 1) (by decide) (by decide)).1
    rw [h]
    decide

/-- C9: `load_data` is a total function of its two (possibly failed) sources:
on any load failure it returns the empty frame rather than propagating an
exception, and when both sources load it returns exactly the left join on
`mql_id`, in which every MQL row survives. -/
theorem load_data_failure_and_join (mktSrc : Option (List MktRow))
    (closedSrc : Option (List ClosedRow)) :
    ((mktSrc = none ∨ closedSrc = none) → load_data mktSrc closedSrc = []) ∧
    (∀ mkt closed, mktSrc = some mkt → closedSrc = some closed →
      load_data mktSrc closedSrc = mergeLeft mkt closed ∧
      ∀ r ∈ mkt, ∃ j ∈ load_data mktSrc closedSrc, j.mkt = r) := by
  constructor
  · rintro (rfl | rfl)
    · cases closedSrc <;> rfl
    · cases mktSrc <;> rfl
  · rintro mkt closed rfl rfl
    refine ⟨rfl, fun r hr => ?_⟩
    show ∃ j ∈ mergeLeft mkt closed, j.mkt = r
    unfold mergeLeft
    cases h : closed.filter (fun c => c.mql_id = r.mql_id) with
    | nil =>
        exact ⟨⟨r, none⟩, List.mem_flatMap.mpr ⟨r, hr, by simp [h]⟩, rfl⟩
    | cons c cs =>
        exact ⟨⟨r, some c⟩, List.mem_flatMap.mpr ⟨r, hr, by simp [h]⟩, rfl⟩

/-- Witness for C9 at concrete sources: a missing MQL file yields the empty
frame, and two well-formed sources yield their left join. -/
theorem load_data_failure_and_join_witness :
    load_data none (some demoClosed) = [] ∧
    load_data (some demoMkt) (some demoClosed) = mergeLeft demoMkt demoClosed ∧
    ∃ j ∈ load_data (some demoMkt) (some demoClosed),
      j.mkt = { mql_id := "b", first_contact_date := some "2018-01-02",
                origin := some "organic", landing_page_id := none } :=
  ⟨(load_data_failure_and_join none (some demoClosed)).1 (Or.inl rfl),
   ((load_data_failure_and_join (some demoMkt) (some demoClosed)).2
      demoMkt demoClosed rfl rfl).1,
   ((load_data_failure_and_join (some demoMkt) (some demoClosed)).2
      demoMkt demoClosed rfl rfl).2 _ (by decide)⟩

/-- Witness for C7: the zero-denominator clauses discharged on the empty
record set, the chain hypothesis discharged on a concrete well-formed set. -/
theorem funnel_ratios_safe_witness :
    ((calculate_funnel_metrics ([] : List FunnelRow)).conversion_mql_to_sql = 0 ∧
      (calculate_funnel_metrics ([] : List FunnelRow)).conversion_mql_to_won = 0) ∧
    (calculate_funnel_metrics ([] : List FunnelRow)).conversion_sql_to_won = 0 ∧
    (0 ≤ (calculate_funnel_metrics funnelDemoDf).conversion_mql_to_sql ∧
      (calculate_funnel_metrics funnelDemoDf).conversion_mql_to_sql ≤ 1) :=
  ⟨(funnel_ratios_safe []).1 (by decide),
   (funnel_ratios_safe []).2.1 (by decide),
   ((funnel_ratios_safe funnelDemoDf).2.2 (by decide) (by decide)).1⟩

/-- C8: the drop phase of `preprocess_data` never drops a protected
essential column, whatever its completeness; every dropped column is
non-essential and comes either from the fixed non-predictive identifier
list or from the low-completeness list; and every essential column of the
input survives into the output frame. -/
theorem preprocess_never_drops_essential (df : ColDF) (low : List String)
    (h : get_low_completion_columns df "seller_id" 60 = some low) :
    ∃ toDrop, columns_to_drop df = some toDrop ∧
      (∀ c ∈ essential_cols, c ∉ toDrop) ∧
      (∀ c ∈ toDrop, c ∉ essential_cols ∧ (c ∈ nonPredictiveCols ∨ c ∈ low)) ∧
      ∀ out, preprocess_data_drop df = some out →
        ∀ col ∈ df, col.name ∈ essential_cols → col ∈ out := by
  have hcd : columns_to_drop df = some ((nonPredictiveCols ++ low).filter
      (fun col => col ∉ essential_cols ∧ (df.map (·.name)).contains col)) := by
    unfold columns_to_drop
    rw [h]
    rfl
  refine ⟨_, hcd, ?_, ?_, ?_⟩
  · intro c hc hmem
    have hp := List.of_mem_filter hmem
    simp only [decide_eq_true_eq] at hp
    exact hp.1 hc
  · intro c hc
    have hp := List.of_mem_filter hc
    have hm := List.mem_of_mem_filter hc
    simp only [decide_eq_true_eq] at hp
    exact ⟨hp.1, List.mem_append.mp hm⟩
  · intro out hout col hcol hess
    unfold preprocess_data_drop at hout
    rw [hcd] at hout
    simp only [Option.map_some', Option.some_inj] at hout
    subst hout
    refine List.mem_filter.mpr ⟨hcol, ?_⟩
    simp only [decide_eq_true_eq]
    intro hmem
    have hmem' : col.name ∈ (nonPredictiveCols ++ low).filter
        (fun c => c ∉ essential_cols ∧ (df.map (·.name)).contains c) := by
      simpa using hmem
    have hp := List.of_mem_filter hmem'
    simp only [decide_eq_true_eq] at hp
    exact hp.1 hess

/-- Witness for C8 on a frame whose essential `won_date` column is 0%
complete: `won_date` is flagged low-completeness yet not dropped. -/
theorem preprocess_never_drops_essential_witness :
    ∃ toDrop, columns_to_drop demoColDF = some toDrop ∧ "won_date" ∉ toDrop := by
  have hA : (completionRate 1 colMqlId).ltQ 60 = false :=
    completionRate_ltQ_false 60 1 colMqlId (by norm_num)
      (by rw [show colCount colMqlId = 2 from by decide]; norm_num)
  have hB : (completionRate 1 colSeller).ltQ 60 = false :=
    completionRate_ltQ_false 60 1 colSeller (by norm_num)
      (by rw [show colCount colSeller = 1 from by decide]; norm_num)
  have hC : (completionRate 1 colWon).ltQ 60 = true :=
    completionRate_ltQ_true 60 1 colWon (by norm_num)
      (by rw [show colCount colWon = 0 from by decide]; norm_num)
  have hD : (completionRate 1 colOrigin).ltQ 60 = false :=
    completionRate_ltQ_false 60 1 colOrigin (by norm_num)
      (by rw [show colCount colOrigin = 2 from by decide]; norm_num)
  have hE : (completionRate 1 colFc).ltQ 60 = false :=
    completionRate_ltQ_false 60 1 colFc (by norm_num)
      (by rw [show colCount colFc = 2 from by decide]; norm_num)
  have hlow : get_low_completion_columns demoColDF "seller_id" 60 = some ["won_date"] := by
    have hget : getCol demoColDF "seller_id" = some colSeller := by decide
    unfold get_low_completion_columns
    rw [hget]
    simp only [Option.map_some', Option.some_inj]
    rw [show colNunique colSeller = 1 from by decide]
    simp only [demoColDF, List.filter, hA, hB, hC, hD, hE]
    rfl
  obtain ⟨t, h1, h2, _⟩ :=
    preprocess_never_drops_essential demoColDF ["won_date"] hlow
  exact ⟨t, h1, h2 "won_date" (by decide)⟩

/-- C10: when the designated seller-identifier column has zero distinct
non-null values, `get_low_completion_columns` returns the empty list for
every threshold — the per-column division by the zero distinct-seller count
yields NaN or +inf, which never compare below the threshold, and no fault
occurs — so `preprocess_data` drops only the fixed non-predictive identifier
columns present in the frame. -/
theorem low_completion_safe_when_no_sellers (df : ColDF) (sellerCol : Col)
    (hfind : getCol df "seller_id" = some sellerCol)
    (hzero : colNunique sellerCol = 0) :
    (∀ t : ℚ, get_low_completion_columns df "seller_id" t = some []) ∧
    columns_to_drop df = some (nonPredictiveCols.filter
      (fun col => col ∉ essential_cols ∧ (df.map (·.name)).contains col)) := by
  have hlow : ∀ t : ℚ, get_low_completion_columns df "seller_id" t = some [] := by
    intro t
    unfold get_low_completion_columns
    rw [hfind]
    simp only [Option.map_some', Option.some_inj]
    rw [hzero]
    have hfilt : df.filter (fun c => (completionRate 0 c).ltQ t) = [] := by
      rw [List.filter_eq_nil_iff]
      intro c _
      have : completionRate 0 c = (pdiv ((colCount c : ℚ) * 100) 0).round2 := by
        unfold completionRate
        norm_num
      rw [this, pdiv_zero_ltQ_false _ t (by positivity)]
      exact Bool.false_ne_true
    rw [hfilt]
    rfl
  refine ⟨hlow, ?_⟩
  unfold columns_to_drop
  rw [hlow 60]
  simp only [Option.map_some', List.append_nil]

/-- Witness for C10 on a frame whose `seller_id` column is entirely null:
no column is flagged low-completeness and only the present fixed identifier
columns are dropped. -/
theorem low_completion_safe_when_no_sellers_witness :
    get_low_completion_columns noSellerDF "seller_id" 60 = some [] ∧
    columns_to_drop noSellerDF = some ["landing_page_id", "seller_id"] := by
  obtain ⟨h1, h2⟩ := low_completion_safe_when_no_sellers noSellerDF
    { name := "seller_id", cells := [none] } (by decide) (by decide)
  exact ⟨h1 60, h2.trans (by decide)⟩

/-- C5 counterexample: the configuration check is `np.isclose`, not exact
equality, so the weight pair `(0.5, 0.50001)` — whose sum `1.00001` is not
`1.0` — is accepted rather than rejected. -/
theorem score_accepts_inexact_weights_counterexample :
    (1 / 2 : ℚ) + (1 / 2 + 1 / 100000) ≠ 1 ∧
    ∃ l, calculate_origin_score [] (1 / 2) (1 / 2 + 1 / 100000) = .ok l := by
  constructor
  · norm_num
  · refine ⟨[], ?_⟩
    unfold calculate_origin_score
    have htrue : isclose ((1 / 2 : ℚ) + (1 / 2 + 1 / 100000)) 1 = true := by
      apply decide_eq_true
      rw [show (1 / 2 : ℚ) + (1 / 2 + 1 / 100000) - 1 = 1 / 100000 by ring,
        abs_of_pos (show (0 : ℚ) < 1 / 100000 by norm_num),
        abs_one, mul_one]
      norm_num
    rw [htrue]
    simp

/-- C5 (amended): `calculate_origin_score` rejects — for every input frame,
before any computation on the data — exactly the weight pairs whose sum is
farther from 1.0 than the `np.isclose` tolerance
`atol + rtol * 1 = 1e-8 + 1e-5`; in particular `(0.5, 0.4)` fails.  Pairs
inside the tolerance band are accepted even when their sum is not exactly
1.0 (see the counterexample). -/
theorem score_rejects_far_weights (df : List ScoreInputRow)
    (weight_conversion weight_speed : ℚ)
    (h : 1 / 100000000 + 1 / 100000 < |weight_conversion + weight_speed - 1|) :
    calculate_origin_score df weight_conversion weight_speed =
      .error "Weights must sum to 1.0" := by
  unfold calculate_origin_score
  have hfalse : isclose (weight_conversion + weight_speed) 1 = false := by
    apply decide_eq_false
    rw [abs_one, mul_one]
    exact not_le.mpr h
  rw [hfalse]
  rfl

/-- Witness for C5 (amended): the pair `(0.5, 0.4)` is rejected. -/
theorem score_rejects_far_weights_witness :
    calculate_origin_score scoreGapDf (1 / 2) (2 / 5) =
      .error "Weights must sum to 1.0" :=
  score_rejects_far_weights scoreGapDf (1 / 2) (2 / 5)
    (by rw [show (1 / 2 : ℚ) + 2 / 5 - 1 = -(1 / 10) by ring, abs_neg,
          abs_of_pos (show (0 : ℚ) < 1 / 10 by norm_num)]
        norm_num)

/-- C3 counterexample: the configuration check (`np.isclose` of the sum to
1.0) also accepts weight pairs with a negative component, such as
`(2, -1)`; with them `origin_score` escapes `[0,1]` — here one origin
scores `2·1 + (-1)·0.5 = 1.5 > 1`. -/
theorem origin_score_out_of_range_counterexample :
    ∃ l, calculate_origin_score scoreGapDf 2 (-1) = .ok l ∧
      ∃ r ∈ l, 1 < r.origin_score := by
  have htrue : isclose ((2 : ℚ) + (-1)) 1 = true := by
    apply decide_eq_true
    rw [show (2 : ℚ) + (-1) - 1 = 0 by ring, abs_zero, abs_one, mul_one]
    norm_num
  have hwc : scoreGapDf.map wcFill = [1, 0] := by
    simp [scoreGapDf, scoreHiRow, scoreLoRow, wcFill]
  have hd : scoreGapDf.map (daysFill scoreGapDf) = [5, 5] := by
    simp [scoreGapDf, scoreHiRow, scoreLoRow, daysFill]
  have hmin1 : listMin [(1 : ℚ), 0] = some 0 := by
    rw [listMin, listMin, listMin]
    norm_num [min_def]
  have hmax1 : listMax [(1 : ℚ), 0] = some 1 := by
    rw [listMax, listMax, listMax]
    norm_num [max_def]
  have hmin2 : listMin [(5 : ℚ), 5] = some 5 := by
    rw [listMin, listMin, listMin]
    norm_num [min_def]
  have hmax2 : listMax [(5 : ℚ), 5] = some 5 := by
    rw [listMax, listMax, listMax]
    norm_num [max_def]
  have hn1 : normMinMax (scoreGapDf.map wcFill) 1 = 1 := by
    rw [hwc]
    simp only [normMinMax, hmin1, hmax1]
    norm_num
  have hn2 : normMinMaxInv (scoreGapDf.map (daysFill scoreGapDf)) 5 = 1 / 2 := by
    rw [hd]
    simp only [normMinMaxInv, hmin2, hmax2]
    norm_num
  have hrow : scoreHiRow ∈ scoreGapDf := by
    simp [scoreGapDf]
  unfold calculate_origin_score
  simp only [htrue, Bool.true_eq_false, if_false]
  refine ⟨_, rfl, _, List.mem_mergeSort.mpr (List.mem_map_of_mem _ hrow), ?_⟩
  show 1 < 2 * normMinMax (scoreGapDf.map wcFill) (wcFill scoreHiRow) +
    (-1) * normMinMaxInv (scoreGapDf.map (daysFill scoreGapDf))
      (daysFill scoreGapDf scoreHiRow)
  rw [show wcFill scoreHiRow = 1 from rfl,
    show daysFill scoreGapDf scoreHiRow = 5 from rfl, hn1, hn2]
  norm_num

/-- C3 (amended): for nonnegative weights summing exactly to 1 (which the
`np.isclose` check accepts), every `origin_score` produced by
`calculate_origin_score` lies in `[0,1]`: both normalized components lie in
`[0,1]`, and the score is their convex combination.  The check also accepts
weight pairs with a negative component summing to 1, for which the score can
leave `[0,1]` (see the counterexample). -/
theorem origin_score_in_unit_interval (df : List ScoreInputRow)
    (weight_conversion weight_speed : ℚ) (l : List ScoredRow)
    (hwc : 0 ≤ weight_conversion) (hws : 0 ≤ weight_speed)
    (hsum : weight_conversion + weight_speed = 1)
    (h : calculate_origin_score df weight_conversion weight_speed = .ok l) :
    ∀ r ∈ l, 0 ≤ r.origin_score ∧ r.origin_score ≤ 1 := by
  have htrue : isclose (weight_conversion + weight_speed) 1 = true := by
    apply decide_eq_true
    rw [hsum, sub_self, abs_zero, abs_one, mul_one]
    norm_num
  unfold calculate_origin_score at h
  rw [htrue] at h
  simp only [Bool.true_eq_false, if_false, Except.ok.injEq] at h
  subst h
  intro r hr
  rw [List.mem_mergeSort] at hr
  rcases List.mem_map.mp hr with ⟨row, hrow, rfl⟩
  have ha := normMinMax_mem_unit
    (show wcFill row ∈ df.map wcFill from List.mem_map_of_mem _ hrow)
  have hb := normMinMaxInv_mem_unit
    (show daysFill df row ∈ df.map (daysFill df) from List.mem_map_of_mem _ hrow)
  constructor
  · exact add_nonneg (mul_nonneg hwc ha.1) (mul_nonneg hws hb.1)
  · have h1 : weight_conversion * normMinMax (df.map wcFill) (wcFill row) ≤
        weight_conversion := mul_le_of_le_one_right hwc ha.2
    have h2 : weight_speed * normMinMaxInv (df.map (daysFill df)) (daysFill df row) ≤
        weight_speed := mul_le_of_le_one_right hws hb.2
    calc weight_conversion * normMinMax (df.map wcFill) (wcFill row) +
          weight_speed * normMinMaxInv (df.map (daysFill df)) (daysFill df row)
        ≤ weight_conversion + weight_speed := add_le_add h1 h2
      _ = 1 := hsum

/-- Witness for C3 (amended) at the default weights `(0.6, 0.4)` on a
concrete frame. -/
theorem origin_score_in_unit_interval_witness :
    ∃ l, calculate_origin_score scoreGapDf (3 / 5) (2 / 5) = .ok l ∧
      ∀ r ∈ l, 0 ≤ r.origin_score ∧ r.origin_score ≤ 1 := by
  have htrue : isclose ((3 / 5 : ℚ) + 2 / 5) 1 = true := by
    apply decide_eq_true
    rw [show (3 / 5 : ℚ) + 2 / 5 - 1 = 0 by ring, abs_zero, abs_one, mul_one]
    norm_num
  have hok : ∃ l, calculate_origin_score scoreGapDf (3 / 5) (2 / 5) = .ok l := by
    unfold calculate_origin_score
    simp only [htrue, Bool.true_eq_false, if_false]
    exact ⟨_, rfl⟩
  obtain ⟨l, hl⟩ := hok
  exact ⟨l, hl, origin_score_in_unit_interval scoreGapDf (3 / 5) (2 / 5) l
    (by norm_num) (by norm_num) (by norm_num) hl⟩

/-- C6: whenever a component column is constant across origins after NaN
filling — every filled `weighted_conversion` equal, or every filled
`days_to_convert_q3` equal — that component's min-max-normalized column is
exactly `0.5` on every output row (`max > min` fails, so the code's fixed
mid-value branch is taken). -/
theorem norm_half_when_component_constant (df : List ScoreInputRow)
    (weight_conversion weight_speed : ℚ) (l : List ScoredRow)
    (h : calculate_origin_score df weight_conversion weight_speed = .ok l) :
    ((∀ r ∈ df, ∀ r' ∈ df, wcFill r = wcFill r') →
      ∀ r ∈ l, r.norm_weighted_conversion = 1 / 2) ∧
    ((∀ r ∈ df, ∀ r' ∈ df, daysFill df r = daysFill df r') →
      ∀ r ∈ l, r.norm_days_to_convert = 1 / 2) := by
  unfold calculate_origin_score at h
  rcases hcheck : isclose (weight_conversion + weight_speed) 1 with _ | _
  · rw [hcheck] at h
    simp at h
  rw [hcheck] at h
  simp only [Bool.true_eq_false, if_false, Except.ok.injEq] at h
  subst h
  constructor
  · intro hconst r hr
    rw [List.mem_mergeSort] at hr
    rcases List.mem_map.mp hr with ⟨row, hrow, rfl⟩
    have hall : ∀ x ∈ df.map wcFill, x = wcFill row := by
      intro x hx
      rcases List.mem_map.mp hx with ⟨row', hrow', rfl⟩
      exact hconst row' hrow' row hrow
    exact normMinMax_of_const hall _
  · intro hconst r hr
    rw [List.mem_mergeSort] at hr
    rcases List.mem_map.mp hr with ⟨row, hrow, rfl⟩
    have hall : ∀ x ∈ df.map (daysFill df), x = daysFill df row := by
      intro x hx
      rcases List.mem_map.mp hx with ⟨row', hrow', rfl⟩
      exact hconst row' hrow' row hrow
    exact normMinMaxInv_of_const hall _

/-- Witness for C6 on a frame whose two origins share
`weighted_conversion = 3`: both normalized conversions are `0.5`. -/
theorem norm_half_when_component_constant_witness :
    ∃ l, calculate_origin_score scoreConstDf (3 / 5) (2 / 5) = .ok l ∧
      ∀ r ∈ l, r.norm_weighted_conversion = 1 / 2 := by
  have htrue : isclose ((3 / 5 : ℚ) + 2 / 5) 1 = true := by
    apply decide_eq_true
    rw [show (3 / 5 : ℚ) + 2 / 5 - 1 = 0 by ring, abs_zero, abs_one, mul_one]
    norm_num
  have hok : ∃ l, calculate_origin_score scoreConstDf (3 / 5) (2 / 5) = .ok l := by
    unfold calculate_origin_score
    simp only [htrue, Bool.true_eq_false, if_false]
    exact ⟨_, rfl⟩
  obtain ⟨l, hl⟩ := hok
  refine ⟨l, hl, (norm_half_when_component_constant scoreConstDf (3 / 5) (2 / 5) l hl).1 ?_⟩
  intro r hr r' hr'
  simp only [scoreConstDf, List.mem_cons, List.mem_singleton] at hr hr'
  rcases hr with rfl | rfl | hr <;> rcases hr' with rfl | rfl | hr' <;>
    first
      | rfl
      | cases hr
      | cases hr'

/-- C4 counterexample: a non-empty input whose every record has the
`'unknown'` sentinel origin yields an empty origin table, whose
`mql_percentage` values sum to 0, not approximately 100. -/
theorem origin_percentage_sums_counterexample :
    unknownOnlyDf ≠ [] ∧
    calculate_origin_conversion unknownOnlyDf = [] ∧
    ¬ (|((calculate_origin_conversion unknownOnlyDf).map
        (fun r => r.mql_percentage.getD 0)).sum - 100| ≤ 5) := by
  have hempty : calculate_origin_conversion unknownOnlyDf = [] := by
    unfold calculate_origin_conversion aggByOrigin originRows
    simp [unknownOnlyDf]
  refine ⟨by simp [unknownOnlyDf], hempty, ?_⟩
  rw [hempty]
  simp only [List.map_nil, List.sum_nil, zero_sub, abs_neg]
  rw [abs_of_pos (show (0 : ℚ) < 100 by norm_num)]
  norm_num

/-- C4 (amended): over the filtered known-origin population, the rounded
`mql_percentage` values sum to 100 up to one rounding step (`0.005`) per
origin row whenever at least one known-origin record exists; the rounded
`won_percentage` values do likewise whenever at least one known-origin
conversion exists; and when no known-origin record converted, every
`won_percentage` is undefined (NaN), so no sum-to-100 property holds for
it.  (On an input with no known-origin records the function returns the
empty table — see the counterexample.) -/
theorem origin_percentage_sums (df : List PRow) :
    (df.filter (fun r => r.origin ≠ "unknown") ≠ [] →
      (∀ r ∈ calculate_origin_conversion df, r.mql_percentage.isSome = true) ∧
      |((calculate_origin_conversion df).map (fun r => r.mql_percentage.getD 0)).sum
          - 100|
        ≤ ((calculate_origin_conversion df).length : ℚ) / 200) ∧
    (((aggByOrigin (df.filter (fun r => r.origin ≠ "unknown"))).map (·.won)).sum ≠ 0 →
      (∀ r ∈ calculate_origin_conversion df, r.won_percentage.isSome = true) ∧
      |((calculate_origin_conversion df).map (fun r => r.won_percentage.getD 0)).sum
          - 100|
        ≤ ((calculate_origin_conversion df).length : ℚ) / 200) ∧
    (((aggByOrigin (df.filter (fun r => r.origin ≠ "unknown"))).map (·.won)).sum = 0 →
      ∀ r ∈ calculate_origin_conversion df, r.won_percentage = none) := by
  have hperm : List.Perm (calculate_origin_conversion df)
      (originRows (aggByOrigin (df.filter (fun r => r.origin ≠ "unknown")))) :=
    List.mergeSort_perm _ _
  have hlen : (calculate_origin_conversion df).length
      = (aggByOrigin (df.filter (fun r => r.origin ≠ "unknown"))).length := by
    rw [hperm.length_eq]
    unfold originRows
    simp
  refine ⟨?_, ?_, ?_⟩
  · intro hknown
    have hT := aggByOrigin_total_mql_ne_zero hknown
    constructor
    · intro r hr
      rw [hperm.mem_iff] at hr
      simp only [originRows] at hr
      rcases List.mem_map.mp hr with ⟨b, _, rfl⟩
      simp
      simpa using hT
    · rw [(hperm.map (fun r => r.mql_percentage.getD 0)).sum_eq,
        originRows_map_mql_pct hT, hlen]
      exact round2_pct_sum _ (·.mql) hT
  · intro hW
    constructor
    · intro r hr
      rw [hperm.mem_iff] at hr
      simp only [originRows] at hr
      rcases List.mem_map.mp hr with ⟨b, _, rfl⟩
      simp
      simpa using hW
    · rw [(hperm.map (fun r => r.won_percentage.getD 0)).sum_eq,
        originRows_map_won_pct hW, hlen]
      exact round2_pct_sum _ (·.won) hW
  · intro hW r hr
    rw [hperm.mem_iff] at hr
    simp only [originRows] at hr
    rcases List.mem_map.mp hr with ⟨b, _, rfl⟩
    simp
    simpa using hW

/-- Witness for C4 (amended) on a two-origin frame with one conversion. -/
theorem origin_percentage_sums_witness :
    (∀ r ∈ calculate_origin_conversion demoPDf, r.mql_percentage.isSome = true) ∧
    (|((calculate_origin_conversion demoPDf).map
        (fun r => r.mql_percentage.getD 0)).sum - 100|
      ≤ ((calculate_origin_conversion demoPDf).length : ℚ) / 200) ∧
    (∀ r ∈ calculate_origin_conversion demoPDf, r.won_percentage.isSome = true) := by
  have h1 : demoPDf.filter (fun r => r.origin ≠ "unknown") ≠ [] := by decide
  have h2 : ((aggByOrigin (demoPDf.filter
      (fun r => r.origin ≠ "unknown"))).map (·.won)).sum ≠ 0 := by decide
  obtain ⟨ha, hb⟩ := (origin_percentage_sums demoPDf).1 h1
  obtain ⟨hc, _⟩ := (origin_percentage_sums demoPDf).2.1 h2
  exact ⟨ha, hb, hc⟩
